import Mathlib

/-!
Shallow embedding of the `pool` Go library: a bounded blocking deque
(a doubly linked list gated by a buffered channel used as a counting
semaphore) and the connection pool built on top of it.

Go channels, locks and goroutines are modelled by a sequential
state-passing semantics in which every exported operation is one atomic
step.  `time.Duration` values are `Int` nanoseconds; the wall clock is an
`Int` argument `now`.  The external dialer factory is abstracted by a
`dialOk` flag on the pool (the factory either produces a fresh transport
or fails); transport side effects are recorded in an event list, so that
"the factory was invoked" and "the underlying transport was closed" are
observable in theorem statements.  A Go nil-pointer dereference is
modelled as an explicit `panicNilDeref` outcome (for results) or as an
absent result (for the idle sweep, which runs on a goroutine).
-/

namespace PoolSpec

/-- One nanosecond times 10^9, i.e. Go's `time.Second`. -/
def second : Int := 1000000000

/-- Source `CacheMethod` enumeration (`UndefinedCacheMethod`, `FIFO`, `FILO`). -/
inductive CacheMethod where
  | undefinedCacheMethod
  | fifo
  | filo
deriving DecidableEq, Repr

/-- Source `Config` struct.  Durations are `Int` nanoseconds, capacities Go ints. -/
structure Config where
  cacheMethod : CacheMethod
  initCap : Int
  maxCap : Int
  idleTimeout : Int
  waitTimeout : Int
  ioTimeout : Int
  dialTimeout : Int
deriving DecidableEq, Repr

/-- Source `defaultConfig`. -/
def defaultConfig : Config :=
  { cacheMethod := .fifo
    initCap := 0
    maxCap := 1
    idleTimeout := 3 * second
    waitTimeout := 3 * second
    ioTimeout := 30 * second
    dialTimeout := 30 * second }

/-- Source `Config.Merge`: start from the receiver, adopt each of MaxCap /
DialTimeout / IOTimeout / WaitTimeout / IdleTimeout from the argument when
that field is positive and differs, recording in `changed` whether any
field was adopted.  `InitCap` and `CacheMethod` have no merge clause in
the source and therefore always come from the receiver. -/
def Config.Merge (c : Config) (n : Config) : Config × Bool :=
  let changed := false
  let changed := if 0 < n.maxCap ∧ n.maxCap ≠ c.maxCap then true else changed
  let result := if 0 < n.maxCap ∧ n.maxCap ≠ c.maxCap then { c with maxCap := n.maxCap } else c
  let changed := if 0 < n.dialTimeout ∧ n.dialTimeout ≠ result.dialTimeout then true else changed
  let result := if 0 < n.dialTimeout ∧ n.dialTimeout ≠ result.dialTimeout then { result with dialTimeout := n.dialTimeout } else result
  let changed := if 0 < n.ioTimeout ∧ n.ioTimeout ≠ result.ioTimeout then true else changed
  let result := if 0 < n.ioTimeout ∧ n.ioTimeout ≠ result.ioTimeout then { result with ioTimeout := n.ioTimeout } else result
  let changed := if 0 < n.waitTimeout ∧ n.waitTimeout ≠ result.waitTimeout then true else changed
  let result := if 0 < n.waitTimeout ∧ n.waitTimeout ≠ result.waitTimeout then { result with waitTimeout := n.waitTimeout } else result
  let changed := if 0 < n.idleTimeout ∧ n.idleTimeout ≠ result.idleTimeout then true else changed
  let result := if 0 < n.idleTimeout ∧ n.idleTimeout ≠ result.idleTimeout then { result with idleTimeout := n.idleTimeout } else result
  (result, changed)

/-- Observable transport/factory side effects of a pool operation. -/
inductive Event where
  | factoryCall (dialTimeout : Int)
  | transportClose (id : Nat)
deriving DecidableEq, Repr

/-- Source `WrappedConn`.  `id` identifies the underlying `net.Conn`;
`transportClosed` records that the underlying transport was closed while
the handle still sits in the deque (the idle sweep does this in place). -/
structure WrappedConn where
  id : Nat
  unusable : Bool
  lastAccess : Int
  transportClosed : Bool
deriving DecidableEq, Repr

/-- A `*WrappedConn` pointer stored in the deque: `none` is the typed-nil
pointer that `WrappedConn.Close` pushes for an unusable handle. -/
abbrev Elem := Option WrappedConn

/-- Source `deque`: list container (head = front) plus capacity (a Go int;
negative means unlimited). -/
structure deque where
  container : List Elem
  capacity : Int
deriving DecidableEq, Repr

/-- Source `newDeque`. -/
def newDeque (capacity : Int) : deque :=
  { container := [], capacity := capacity }

/-- Source `deque.append` (PushBack): succeeds iff capacity is unlimited or
not yet reached. -/
def deque.append (s : deque) (item : Elem) : deque × Bool :=
  if s.capacity < 0 ∨ (s.container.length : Int) < s.capacity then
    ({ s with container := s.container ++ [item] }, true)
  else
    (s, false)

/-- Source `deque.prepend` (PushFront). -/
def deque.prepend (s : deque) (item : Elem) : deque × Bool :=
  if s.capacity < 0 ∨ (s.container.length : Int) < s.capacity then
    ({ s with container := item :: s.container }, true)
  else
    (s, false)

/-- Source `deque.pop`: remove and return the back element; on an empty
deque the returned interface value is nil (`none` here). -/
def deque.pop (s : deque) : deque × Option Elem :=
  match s.container.getLast? with
  | none => (s, none)
  | some x => ({ s with container := s.container.dropLast }, some x)

/-- Source `blockingDeque`: the deque plus the buffered channel `gate`
used as a counting semaphore.  `gateCap` is the channel capacity and
`gate` the number of buffered tokens. -/
structure blockingDeque where
  dq : deque
  gateCap : Nat
  gate : Nat
deriving DecidableEq, Repr

/-- Source `newBlockingDeque maxCap nilCap`: deque capacity `maxCap`,
channel capacity `maxCap`, preloaded with `nilCap` tokens.  The source's
preload loop would block forever past the channel capacity; every call
site passes `nilCap ≤ maxCap`, and the `min` makes the model total. -/
def newBlockingDeque (maxCap nilCap : Int) : blockingDeque :=
  { dq := newDeque maxCap
    gateCap := maxCap.toNat
    gate := min nilCap.toNat maxCap.toNat }

/-- Result of `blockingDeque.pop`: timed out, or a token was consumed and
the deque popped (yielding the popped interface value, nil when the deque
was empty). -/
inductive popResult where
  | timeout
  | item (e : Option Elem)
deriving DecidableEq, Repr

/-- Source `blockingDeque.pop`: wait for a gate token with a timeout, then
pop the inner deque.  Sequentially, no token can arrive while waiting, so
an empty gate means the timeout fires. -/
def blockingDeque.pop (q : blockingDeque) : blockingDeque × popResult :=
  if q.gate = 0 then
    (q, .timeout)
  else
    ({ q with dq := (q.dq.pop).1, gate := q.gate - 1 }, .item (q.dq.pop).2)

/-- Source `blockingDeque.append`: non-blocking try-send on the gate;
`false` is `errDequeFull`.  On success the inner `deque.append` runs and
its boolean result is discarded, exactly as in the source. -/
def blockingDeque.append (q : blockingDeque) (item : Elem) : blockingDeque × Bool :=
  if q.gate < q.gateCap then
    ({ q with dq := (q.dq.append item).1, gate := q.gate + 1 }, true)
  else
    (q, false)

/-- Source `blockingDeque.prepend`: as `append` but pushing at the front. -/
def blockingDeque.prepend (q : blockingDeque) (item : Elem) : blockingDeque × Bool :=
  if q.gate < q.gateCap then
    ({ q with dq := (q.dq.prepend item).1, gate := q.gate + 1 }, true)
  else
    (q, false)

/-- Source `blockingPool`.  `conns = none` models the closed pool whose
`conns` pointer is nil; `nextId` supplies fresh transport identities;
`dialOk` abstracts whether the external factory succeeds. -/
structure blockingPool where
  config : Config
  conns : Option blockingDeque
  nextId : Nat
  dialOk : Bool
deriving DecidableEq, Repr

/-- Source `blockingPool.NewWrapConn`: invoke the factory with the
configured dial timeout; on success wrap the fresh transport with
`lastAccess = now` and a clear `unusable` flag. -/
def blockingPool.NewWrapConn (p : blockingPool) (now : Int) :
    blockingPool × Option WrappedConn × List Event :=
  if p.dialOk then
    ({ p with nextId := p.nextId + 1 },
     some { id := p.nextId, unusable := false, lastAccess := now, transportClosed := false },
     [Event.factoryCall p.config.dialTimeout])
  else
    (p, none, [Event.factoryCall p.config.dialTimeout])

/-- Outcome of `blockingPool.Get`.  `panicNilDeref` is the Go runtime
panic raised when the popped element is a typed-nil `*WrappedConn`: the
type assertion succeeds with a nil pointer and `conn.unusable` is then a
nil dereference. -/
inductive getResult where
  | errClosed
  | errTimeout
  | errDial
  | panicNilDeref
  | ok (c : WrappedConn)
deriving DecidableEq, Repr

/-- The pool state after a successful gate pop, dialing a replacement
connection: `NewWrapConn` invoked on the pool whose deque was popped. -/
def wrapAfterPop (p : blockingPool) (q : blockingDeque) (now : Int) :
    blockingPool × Option WrappedConn × List Event :=
  blockingPool.NewWrapConn { p with conns := some (q.pop).1 } now

/-- Source `blockingPool.Get`: pop from the blocking deque with the wait
timeout; if the popped interface is not a (non-nil) `*WrappedConn` or the
handle is unusable, dial a fresh connection via `NewWrapConn`; otherwise
return the popped handle. -/
def blockingPool.Get (p : blockingPool) (now : Int) :
    blockingPool × getResult × List Event :=
  match p.conns with
  | none => (p, .errClosed, [])
  | some q =>
    match (q.pop).2 with
    | .timeout => ({ p with conns := some (q.pop).1 }, .errTimeout, [])
    | .item none =>
      -- nil interface (deque was empty): type assertion gives ok = false
      match (wrapAfterPop p q now).2.1 with
      | some c => ((wrapAfterPop p q now).1, .ok c, (wrapAfterPop p q now).2.2)
      | none => ((wrapAfterPop p q now).1, .errDial, (wrapAfterPop p q now).2.2)
    | .item (some none) =>
      -- typed-nil pointer: assertion succeeds, `conn.unusable` panics
      ({ p with conns := some (q.pop).1 }, .panicNilDeref, [])
    | .item (some (some c)) =>
      if c.unusable then
        match (wrapAfterPop p q now).2.1 with
        | some c2 => ((wrapAfterPop p q now).1, .ok c2, (wrapAfterPop p q now).2.2)
        | none => ((wrapAfterPop p q now).1, .errDial, (wrapAfterPop p q now).2.2)
      else
        ({ p with conns := some (q.pop).1 }, .ok c, [])

/-- Outcome of the pool `put` family.  `panicNilDeref` is the nil
dereference in `conn.destroy()` when a nil handle is released to a closed
pool. -/
inductive putResult where
  | ok
  | errClosed
  | panicNilDeref
deriving DecidableEq, Repr

/-- Source `blockingPool.putTop`: on a closed pool destroy the handle and
report `ErrClosed`; otherwise prepend to the blocking deque, discarding
the `errDequeFull` result, and report success. -/
def blockingPool.putTop (p : blockingPool) (conn : Elem) :
    blockingPool × putResult × List Event :=
  match p.conns with
  | none =>
    match conn with
    | some c => (p, .errClosed, [Event.transportClose c.id])
    | none => (p, .panicNilDeref, [])
  | some q =>
    ({ p with conns := some (q.prepend conn).1 }, .ok, [])

/-- Source `blockingPool.putBottom`: as `putTop` but appending at the
tail, again discarding the `errDequeFull` result. -/
def blockingPool.putBottom (p : blockingPool) (conn : Elem) :
    blockingPool × putResult × List Event :=
  match p.conns with
  | none =>
    match conn with
    | some c => (p, .errClosed, [Event.transportClose c.id])
    | none => (p, .panicNilDeref, [])
  | some q =>
    ({ p with conns := some (q.append conn).1 }, .ok, [])

/-- Source `blockingPool.put`: select the return end by cache method
(`FIFO` appends at the bottom, anything else prepends at the top). -/
def blockingPool.put (p : blockingPool) (conn : Elem) :
    blockingPool × putResult × List Event :=
  if p.config.cacheMethod = .fifo then p.putBottom conn else p.putTop conn

/-- Source `WrappedConn.MarkUnusable`. -/
def WrappedConn.MarkUnusable (c : WrappedConn) : WrappedConn :=
  { c with unusable := true }

/-- Source `WrappedConn.Close`: an unusable handle is destroyed and a
typed-nil marker is pushed at the tail; a usable handle is handed back
via `put`, and destroyed only when `put` reports an error.  (`put` with a
non-nil handle never reaches the panic outcome.) -/
def WrappedConn.Close (c : WrappedConn) (p : blockingPool) :
    blockingPool × List Event :=
  if c.unusable then
    ((p.putBottom none).1, Event.transportClose c.id :: (p.putBottom none).2.2)
  else
    match (p.put (some c)).2.1 with
    | .ok => ((p.put (some c)).1, (p.put (some c)).2.2)
    | _ => ((p.put (some c)).1, (p.put (some c)).2.2 ++ [Event.transportClose c.id])

/-- Source `WrappedConn.checkIdle`: when `now - lastAccess` strictly
exceeds the idle timeout, mark the handle unusable and close its
transport; otherwise leave it untouched. -/
def WrappedConn.checkIdle (c : WrappedConn) (now idleT : Int) :
    WrappedConn × Bool × List Event :=
  if idleT < now - c.lastAccess then
    ({ c with unusable := true, transportClosed := true }, false, [Event.transportClose c.id])
  else
    (c, true, [])

/-- One idle-sweep pass over the deque contents, front to back: each
element is cast to `*WrappedConn` and `checkIdle` is invoked on it.  A
typed-nil element makes `checkIdle` dereference nil, so the walk panics:
modelled by an absent result. -/
def sweepElems (now idleT : Int) : List Elem → Option (List Elem × List Event)
  | [] => some ([], [])
  | none :: _ => none
  | some c :: rest =>
    match c.checkIdle now idleT with
    | (c', _, ev) =>
      match sweepElems now idleT rest with
      | none => none
      | some (rest', evs) => some (some c' :: rest', ev ++ evs)

/-- Source `blockingPool.checkIdleConn` (one period of the background
sweep): walk the deque in place, checking each handle for idleness.  On a
closed pool the nil `conns` pointer would panic. -/
def blockingPool.checkIdleConn (p : blockingPool) (now : Int) :
    Option (blockingPool × List Event) :=
  match p.conns with
  | none => none
  | some q =>
    match sweepElems now p.config.idleTimeout q.dq.container with
    | none => none
    | some (l', ev) =>
      some ({ p with conns := some { q with dq := { q.dq with container := l' } } }, ev)

/-- The eager-connection loop of `NewBlockingPool`: dial `n` connections,
prepending each to the blocking deque (the prepend error is discarded, as
in the source); a dial failure aborts construction. -/
def initConns (now : Int) : Nat → blockingPool → Option (blockingPool × List Event)
  | 0, p => some (p, [])
  | n + 1, p =>
    match (p.NewWrapConn now).2.1 with
    | none => none
    | some c =>
      match (p.NewWrapConn now).1.conns with
      | none => none
      | some q =>
        match initConns now n { (p.NewWrapConn now).1 with conns := some (q.prepend (some c)).1 } with
        | none => none
        | some (p3, evs) => some (p3, (p.NewWrapConn now).2.2 ++ evs)

/-- Source `NewBlockingPool`: validate `InitCap ≤ MaxCap` on the caller's
config, merge it into `defaultConfig`, build the blocking deque with
`MaxCap` capacity and `MaxCap - InitCap` preloaded tokens, then dial the
eager connections.  The `address` argument is carried only by the
abstracted factory. -/
def NewBlockingPool (_address : String) (c : Config) (dialOk : Bool) (now : Int) :
    Option (blockingPool × List Event) :=
  if c.maxCap < c.initCap then
    none
  else
    let m := (defaultConfig.Merge c).1
    let p : blockingPool :=
      { config := m
        conns := some (newBlockingDeque m.maxCap (m.maxCap - m.initCap))
        nextId := 0
        dialOk := dialOk }
    initConns now m.initCap.toNat p

/-- Number of real (non-nil) handles stored in a deque container. -/
def realCount (l : List Elem) : Nat :=
  (l.filter fun e => e.isSome).length

/-- The spec names the two return policies by their observable behavior
(its design notes flag the source's FIFO/FILO labels as inverted):
`StackOrder` — most recently released handle is reused first — is the
source's `FIFO` branch of `put` (append at the popping end). -/
def StackOrder : CacheMethod := .fifo

/-- `QueueOrder` — handles are reused in release order — is the source's
`FILO` branch of `put` (prepend at the far end from popping). -/
def QueueOrder : CacheMethod := .filo

/-- One atomic pool operation: an acquire, a release of any element, a
handle close, or a completed idle-sweep pass. -/
inductive Step : blockingPool → blockingPool → Prop where
  | get (p : blockingPool) (now : Int) : Step p (p.Get now).1
  | release (p : blockingPool) (c : Elem) : Step p (p.put c).1
  | close (p : blockingPool) (c : WrappedConn) : Step p (c.Close p).1
  | sweep (p p' : blockingPool) (now : Int) (ev : List Event) :
      p.checkIdleConn now = some (p', ev) → Step p p'

/-- Pool states reachable from a successful construction by any sequence
of operations. -/
inductive Reachable : blockingPool → Prop where
  | init (address : String) (c : Config) (dialOk : Bool) (now : Int)
      (p : blockingPool) (ev : List Event) :
      NewBlockingPool address c dialOk now = some (p, ev) → Reachable p
  | step (p p' : blockingPool) : Reachable p → Step p p' → Reachable p'

/-! ### Helper lemmas about `Config.Merge` and construction -/

theorem Merge_fst_initCap (c n : Config) : (c.Merge n).1.initCap = c.initCap := by
  simp only [Config.Merge]
  split_ifs <;> rfl

theorem Merge_fst_cacheMethod (c n : Config) : (c.Merge n).1.cacheMethod = c.cacheMethod := by
  simp only [Config.Merge]
  split_ifs <;> rfl

theorem Merge_snd_congr (c n : Config) (i : Int) (m : CacheMethod) :
    (c.Merge n).2 = (c.Merge { n with initCap := i, cacheMethod := m }).2 := rfl

theorem Merge_fst_maxCap (c n : Config) :
    (c.Merge n).1.maxCap = if 0 < n.maxCap ∧ n.maxCap ≠ c.maxCap then n.maxCap else c.maxCap := by
  simp only [Config.Merge]
  split_ifs <;> rfl

theorem Merge_fst_maxCap_pos (c n : Config) (h : 0 < c.maxCap) : 0 < (c.Merge n).1.maxCap := by
  rw [Merge_fst_maxCap]
  split_ifs with h1
  · exact h1.1
  · exact h

theorem NewWrapConn_fst_config (p : blockingPool) (now : Int) :
    (p.NewWrapConn now).1.config = p.config := by
  unfold blockingPool.NewWrapConn
  split <;> rfl

theorem NewWrapConn_fst_conns (p : blockingPool) (now : Int) :
    (p.NewWrapConn now).1.conns = p.conns := by
  unfold blockingPool.NewWrapConn
  split <;> rfl

theorem initConns_config (now : Int) :
    ∀ (k : Nat) (p p' : blockingPool) (ev : List Event),
      initConns now k p = some (p', ev) → p'.config = p.config := by
  intro k
  induction k with
  | zero =>
    intro p p' ev h
    simp only [initConns, Option.some.injEq, Prod.mk.injEq] at h
    rw [← h.1]
  | succ n ih =>
    intro p p' ev h
    unfold initConns at h
    split at h
    · exact absurd h (by simp)
    · rename_i c heq
      split at h
      · exact absurd h (by simp)
      · rename_i q hq
        split at h
        · exact absurd h (by simp)
        · rename_i p3 evs hrec
          simp only [Option.some.injEq, Prod.mk.injEq] at h
          have h3 := ih _ _ _ hrec
          rw [← h.1, h3]
          exact NewWrapConn_fst_config p now

theorem NewBlockingPool_config (address : String) (u : Config) (dialOk : Bool) (now : Int)
    (p : blockingPool) (ev : List Event)
    (h : NewBlockingPool address u dialOk now = some (p, ev)) :
    p.config = (defaultConfig.Merge u).1 := by
  unfold NewBlockingPool at h
  split at h
  · exact absurd h (by simp)
  · exact initConns_config now _ _ _ _ h

/-- C10: `Config.Merge` always returns the receiver's `InitCap` and
`CacheMethod`, differences in those two fields never set the `changed`
flag, and consequently `NewBlockingPool` (which merges the caller's
config into the defaults) always builds the pool with `InitCap = 0` and
`CacheMethod = FIFO`. -/
theorem merge_never_adopts_initCap_or_cacheMethod
    (c n : Config) (i : Int) (m : CacheMethod)
    (address : String) (u : Config) (dialOk : Bool) (now : Int)
    (p : blockingPool) (ev : List Event)
    (h : NewBlockingPool address u dialOk now = some (p, ev)) :
    (c.Merge n).1.initCap = c.initCap ∧
    (c.Merge n).1.cacheMethod = c.cacheMethod ∧
    (c.Merge n).2 = (c.Merge { n with initCap := i, cacheMethod := m }).2 ∧
    p.config.initCap = 0 ∧
    p.config.cacheMethod = CacheMethod.fifo := by
  refine ⟨Merge_fst_initCap c n, Merge_fst_cacheMethod c n, Merge_snd_congr c n i m, ?_, ?_⟩
  · rw [NewBlockingPool_config address u dialOk now p ev h, Merge_fst_initCap]
    rfl
  · rw [NewBlockingPool_config address u dialOk now p ev h, Merge_fst_cacheMethod]
    rfl


theorem merge_never_adopts_initCap_or_cacheMethod_witness :
    (defaultConfig.Merge defaultConfig).1.initCap = defaultConfig.initCap ∧
    (defaultConfig.Merge defaultConfig).1.cacheMethod = defaultConfig.cacheMethod ∧
    (defaultConfig.Merge defaultConfig).2 =
      (defaultConfig.Merge { defaultConfig with initCap := 7, cacheMethod := .filo }).2 ∧
    (⟨{ defaultConfig with maxCap := 2 }, some ⟨⟨[], 2⟩, 2, 2⟩, 0, true⟩ :
        blockingPool).config.initCap = 0 ∧
    (⟨{ defaultConfig with maxCap := 2 }, some ⟨⟨[], 2⟩, 2, 2⟩, 0, true⟩ :
        blockingPool).config.cacheMethod = CacheMethod.fifo :=
  merge_never_adopts_initCap_or_cacheMethod defaultConfig defaultConfig 7 .filo
    "addr" ⟨.undefinedCacheMethod, 1, 2, 0, 0, 0, 0⟩ true 0
    ⟨{ defaultConfig with maxCap := 2 }, some ⟨⟨[], 2⟩, 2, 2⟩, 0, true⟩ [] (by decide)

/-- C1 (code bug): constructing a pool with `InitialCapacity = 1 ≤
MaxCapacity = 2` is claimed to make the first acquire return an eager
handle without invoking the factory.  In the code `Config.Merge` drops
`InitCap`, so the pool is built with zero eager connections (empty deque)
and the very first `Get` already invokes the factory once. -/
theorem first_acquire_dials_despite_initCap :
    NewBlockingPool "addr" ⟨.undefinedCacheMethod, 1, 2, 0, 0, 0, 0⟩ true 0 =
      some (⟨{ defaultConfig with maxCap := 2 }, some ⟨⟨[], 2⟩, 2, 2⟩, 0, true⟩, []) ∧
    (blockingPool.Get ⟨{ defaultConfig with maxCap := 2 }, some ⟨⟨[], 2⟩, 2, 2⟩, 0, true⟩ 0).2 =
      (.ok ⟨0, false, 0, false⟩, [.factoryCall (30 * second)]) := by
  decide

/-- C6 (code bug): after construction with `InitCap = 1`, `MaxCap = 2`
the gate does hold exactly `maxCap = 2` tokens, but none of them (rather
than `initCap = 1` of them) is backed by a real deque element, because
`Config.Merge` zeroes `InitCap` before the eager-connection loop runs. -/
theorem construction_gate_full_but_no_real_handles :
    NewBlockingPool "host" ⟨.undefinedCacheMethod, 1, 2, 0, 0, 0, 0⟩ true 0 =
      some (⟨{ defaultConfig with maxCap := 2 }, some ⟨⟨[], 2⟩, 2, 2⟩, 0, true⟩, []) ∧
    (⟨⟨[], 2⟩, 2, 2⟩ : blockingDeque).gate = 2 ∧
    (⟨⟨[], 2⟩, 2, 2⟩ : blockingDeque).gateCap = 2 ∧
    realCount (⟨⟨[], 2⟩, 2, 2⟩ : blockingDeque).dq.container = 0 := by
  decide

/-! ### Equation lemmas for `put` and `Get` on open pools -/

theorem put_eq_top (p : blockingPool) (q : blockingDeque) (e : Elem)
    (hq : p.conns = some q) (hpol : ¬ p.config.cacheMethod = CacheMethod.fifo)
    (hg : q.gate < q.gateCap)
    (hc : q.dq.capacity < 0 ∨ (q.dq.container.length : Int) < q.dq.capacity) :
    p.put e =
      ({ p with conns := some ⟨⟨e :: q.dq.container, q.dq.capacity⟩, q.gateCap, q.gate + 1⟩ },
       .ok, []) := by
  simp only [blockingPool.put, if_neg hpol, blockingPool.putTop, hq,
    blockingDeque.prepend, if_pos hg, deque.prepend, if_pos hc]

theorem put_eq_bottom (p : blockingPool) (q : blockingDeque) (e : Elem)
    (hq : p.conns = some q) (hpol : p.config.cacheMethod = CacheMethod.fifo)
    (hg : q.gate < q.gateCap)
    (hc : q.dq.capacity < 0 ∨ (q.dq.container.length : Int) < q.dq.capacity) :
    p.put e =
      ({ p with conns := some ⟨⟨q.dq.container ++ [e], q.dq.capacity⟩, q.gateCap, q.gate + 1⟩ },
       .ok, []) := by
  simp only [blockingPool.put, if_pos hpol, blockingPool.putBottom, hq,
    blockingDeque.append, if_pos hg, deque.append, if_pos hc]

theorem get_eq_ok (p : blockingPool) (q : blockingDeque) (c : WrappedConn) (now : Int)
    (hq : p.conns = some q) (hg : ¬ q.gate = 0)
    (hlast : q.dq.container.getLast? = some (some c)) (hc : c.unusable = false) :
    p.Get now =
      ({ p with conns := some ⟨⟨q.dq.container.dropLast, q.dq.capacity⟩, q.gateCap, q.gate - 1⟩ },
       .ok c, []) := by
  simp only [blockingPool.Get, hq, blockingDeque.pop, if_neg hg, deque.pop, hlast, hc,
    Bool.false_eq_true, if_false]

/-! ### C4 and C7: concrete operation sequences exhibiting code bugs -/

/-- C4 (code bug): the claim (and the spec) say a release push rejected by
the full gate destroys the handle.  In the code `putTop`/`putBottom`
discard the `errDequeFull` returned by the blocking deque and report
success, so the handle is dropped without its transport being closed.
Concrete run, `maxCap = 1`: construct, `Get` (dials handle 0), `Close` it
(returns it, gate now full), then `Close` it again — the second close's
push is rejected, yet the pool state is unchanged and no
`transportClose` event is emitted: the handle is leaked, not destroyed. -/
theorem rejected_release_push_leaks_handle :
    NewBlockingPool "a" ⟨.undefinedCacheMethod, 0, 0, 0, 0, 0, 0⟩ true 0 =
      some (⟨defaultConfig, some ⟨⟨[], 1⟩, 1, 1⟩, 0, true⟩, []) ∧
    blockingPool.Get ⟨defaultConfig, some ⟨⟨[], 1⟩, 1, 1⟩, 0, true⟩ 0 =
      (⟨defaultConfig, some ⟨⟨[], 1⟩, 1, 0⟩, 1, true⟩, .ok ⟨0, false, 0, false⟩,
       [.factoryCall (30 * second)]) ∧
    WrappedConn.Close ⟨0, false, 0, false⟩ ⟨defaultConfig, some ⟨⟨[], 1⟩, 1, 0⟩, 1, true⟩ =
      (⟨defaultConfig, some ⟨⟨[some ⟨0, false, 0, false⟩], 1⟩, 1, 1⟩, 1, true⟩, []) ∧
    WrappedConn.Close ⟨0, false, 0, false⟩
        ⟨defaultConfig, some ⟨⟨[some ⟨0, false, 0, false⟩], 1⟩, 1, 1⟩, 1, true⟩ =
      (⟨defaultConfig, some ⟨⟨[some ⟨0, false, 0, false⟩], 1⟩, 1, 1⟩, 1, true⟩, []) := by
  decide

/-- C7 (code bug): the claim says a popped absent (nil) element makes
`Get` dial a fresh connection.  A typed-nil `*WrappedConn` — exactly what
`WrappedConn.Close` pushes for an unusable handle — passes the type
assertion with `ok = true` and a nil pointer, and `conn.unusable` then
panics.  Concrete run, `maxCap = 1`: `Get` dials handle 0, the handle is
marked unusable and closed (pushing the typed-nil marker), and the next
`Get` panics instead of invoking the factory (no `factoryCall` event). -/
theorem get_panics_on_nil_marker :
    WrappedConn.MarkUnusable ⟨0, false, 0, false⟩ = ⟨0, true, 0, false⟩ ∧
    WrappedConn.Close ⟨0, true, 0, false⟩ ⟨defaultConfig, some ⟨⟨[], 1⟩, 1, 0⟩, 1, true⟩ =
      (⟨defaultConfig, some ⟨⟨[none], 1⟩, 1, 1⟩, 1, true⟩, [.transportClose 0]) ∧
    blockingPool.Get ⟨defaultConfig, some ⟨⟨[none], 1⟩, 1, 1⟩, 1, true⟩ 5 =
      (⟨defaultConfig, some ⟨⟨[], 1⟩, 1, 0⟩, 1, true⟩, .panicNilDeref, []) := by
  decide

/-! ### C2: release-order policies -/

/-- C2: on a pool whose return policy is `QueueOrder` (the source's
`FILO` branch, named by its observable behavior) with an empty deque and
two free capacity slots, releasing usable handles `A` then `B` makes the
next two acquires return `A` then `B`; under `StackOrder` (the source's
`FIFO` branch) the same release sequence yields `B` then `A`. -/
theorem queueOrder_vs_stackOrder_release
    (p p' : blockingPool) (q q' : blockingDeque) (A B : WrappedConn)
    (hq : p.conns = some q) (hq' : p'.conns = some q')
    (hpol : p.config.cacheMethod = QueueOrder)
    (hpol' : p'.config.cacheMethod = StackOrder)
    (hempty : q.dq.container = []) (hempty' : q'.dq.container = [])
    (hroom : q.gate + 2 ≤ q.gateCap) (hroom' : q'.gate + 2 ≤ q'.gateCap)
    (hcap : q.dq.capacity = (q.gateCap : Int)) (hcap' : q'.dq.capacity = (q'.gateCap : Int))
    (hA : A.unusable = false) (hB : B.unusable = false)
    (t1 t2 t3 t4 : Int) :
    ((((p.put (some A)).1.put (some B)).1.Get t1).2.1 = .ok A ∧
     ((((p.put (some A)).1.put (some B)).1.Get t1).1.Get t2).2.1 = .ok B) ∧
    ((((p'.put (some A)).1.put (some B)).1.Get t3).2.1 = .ok B ∧
     ((((p'.put (some A)).1.put (some B)).1.Get t3).1.Get t4).2.1 = .ok A) := by
  constructor
  · obtain ⟨⟨cont, cap⟩, gcap, g⟩ := q
    dsimp only at hempty hcap hroom
    subst hempty
    subst hcap
    have hg1 : g < gcap := by omega
    have hg2 : g + 1 < gcap := by omega
    have h0 : (0 : Int) < (gcap : Int) := by exact_mod_cast (by omega : 0 < gcap)
    have h1 : (1 : Int) < (gcap : Int) := by exact_mod_cast (by omega : 1 < gcap)
    have hnz : ¬ (g + 2 = 0) := by omega
    have hnz1 : ¬ (g + 1 = 0) := by omega
    have hne : ¬ p.config.cacheMethod = CacheMethod.fifo := by rw [hpol]; decide
    simp [blockingPool.put, blockingPool.putTop, blockingPool.putBottom,
      blockingDeque.prepend, blockingDeque.append, deque.prepend, deque.append,
      blockingPool.Get, blockingDeque.pop, deque.pop, hq, hne,
      hg1, hg2, h0, h1, hnz, hnz1, hA, hB]
  · obtain ⟨⟨cont, cap⟩, gcap, g⟩ := q'
    dsimp only at hempty' hcap' hroom'
    subst hempty'
    subst hcap'
    have hg1 : g < gcap := by omega
    have hg2 : g + 1 < gcap := by omega
    have h0 : (0 : Int) < (gcap : Int) := by exact_mod_cast (by omega : 0 < gcap)
    have h1 : (1 : Int) < (gcap : Int) := by exact_mod_cast (by omega : 1 < gcap)
    have hnz : ¬ (g + 2 = 0) := by omega
    have hnz1 : ¬ (g + 1 = 0) := by omega
    simp [blockingPool.put, blockingPool.putTop, blockingPool.putBottom,
      blockingDeque.prepend, blockingDeque.append, deque.prepend, deque.append,
      blockingPool.Get, blockingDeque.pop, deque.pop, hq', hpol', StackOrder,
      hg1, hg2, h0, h1, hnz, hnz1, hA, hB]

/-- Concrete pool with the `QueueOrder` (source `FILO`) policy for the C2
witness. -/
def c2qpool : blockingPool :=
  ⟨{ defaultConfig with maxCap := 2, cacheMethod := .filo }, some ⟨⟨[], 2⟩, 2, 0⟩, 0, true⟩

/-- Concrete pool with the `StackOrder` (source `FIFO`) policy for the C2
witness. -/
def c2spool : blockingPool :=
  ⟨{ defaultConfig with maxCap := 2 }, some ⟨⟨[], 2⟩, 2, 0⟩, 0, true⟩

/-- The shared empty two-slot blocking deque of the C2 witness pools. -/
def c2deque : blockingDeque := ⟨⟨[], 2⟩, 2, 0⟩

/-- Handle `A` of the C2 witness. -/
def c2A : WrappedConn := ⟨10, false, 0, false⟩

/-- Handle `B` of the C2 witness. -/
def c2B : WrappedConn := ⟨11, false, 0, false⟩

theorem queueOrder_vs_stackOrder_release_witness :
    (c2qpool.conns = some c2deque ∧ c2spool.conns = some c2deque ∧
     c2qpool.config.cacheMethod = QueueOrder ∧ c2spool.config.cacheMethod = StackOrder ∧
     c2deque.dq.container = [] ∧ c2deque.gate + 2 ≤ c2deque.gateCap ∧
     c2deque.dq.capacity = (c2deque.gateCap : Int) ∧
     c2A.unusable = false ∧ c2B.unusable = false) ∧
    ((((c2qpool.put (some c2A)).1.put (some c2B)).1.Get 0).2.1 = .ok c2A ∧
     ((((c2qpool.put (some c2A)).1.put (some c2B)).1.Get 0).1.Get 1).2.1 = .ok c2B) ∧
    ((((c2spool.put (some c2A)).1.put (some c2B)).1.Get 2).2.1 = .ok c2B ∧
     ((((c2spool.put (some c2A)).1.put (some c2B)).1.Get 2).1.Get 3).2.1 = .ok c2A) :=
  ⟨by decide,
   queueOrder_vs_stackOrder_release c2qpool c2spool c2deque c2deque c2A c2B
     rfl rfl (by decide) (by decide) rfl rfl (by decide) (by decide)
     (by decide) (by decide) (by decide) (by decide) 0 1 2 3⟩

/-! ### C9: `WrappedConn.Close` routing -/

/-- C9 counterexample: closing an unusable handle when the gate is
already full (here the same unusable handle is closed a second time on a
`maxCap = 1` pool) closes the transport again but pushes no absent
marker and adds no gate token — the deque keeps its single existing
marker and the gate stays at its old count, refuting the claim that
close of an unusable handle always pushes a nil marker and adds a
token. -/
theorem close_unusable_no_marker_when_gate_full :
    WrappedConn.Close ⟨0, true, 0, false⟩
        ⟨defaultConfig, some ⟨⟨[none], 1⟩, 1, 1⟩, 1, true⟩ =
      (⟨defaultConfig, some ⟨⟨[none], 1⟩, 1, 1⟩, 1, true⟩, [.transportClose 0]) := by
  decide

/-- C9 (amended): closing an unusable handle closes its transport and,
when the gate is not full, pushes an absent (nil) marker at the tail of
the bounded queue and adds one gate token; when the gate is already full
the push is rejected and the pool is left unchanged (only the transport
close happens).  Closing a usable handle hands it back via the pool's
`put`, which reports no error on an open pool, and does not destroy the
handle (it is destroyed only when `put` reports an error). -/
theorem close_routes_by_usability
    (p : blockingPool) (q : blockingDeque) (c : WrappedConn)
    (hq : p.conns = some q)
    (hcap : q.dq.capacity = (q.gateCap : Int))
    (hlen : q.dq.container.length ≤ q.gate) :
    (c.unusable = true →
      (c.Close p).2 = [Event.transportClose c.id] ∧
      (q.gate < q.gateCap →
        (c.Close p).1 =
          { p with
            conns := some ⟨⟨q.dq.container ++ [none], q.dq.capacity⟩, q.gateCap, q.gate + 1⟩ }) ∧
      (q.gateCap ≤ q.gate → (c.Close p).1 = p)) ∧
    (c.unusable = false →
      (c.Close p).1 = (p.put (some c)).1 ∧
      (p.put (some c)).2.1 = putResult.ok ∧
      (c.Close p).2 = []) := by
  constructor
  · intro hu
    rcases hh : q.append none with ⟨q1, b1⟩
    have hclose : c.Close p = ({ p with conns := some q1 }, [Event.transportClose c.id]) := by
      simp [WrappedConn.Close, hu, blockingPool.putBottom, hq, hh]
    refine ⟨by rw [hclose], ?_, ?_⟩
    · intro hg
      have hc : q.dq.capacity < 0 ∨ (q.dq.container.length : Int) < q.dq.capacity := by
        right
        rw [hcap]
        exact_mod_cast lt_of_le_of_lt hlen hg
      have happ : q.append none =
          (⟨⟨q.dq.container ++ [none], q.dq.capacity⟩, q.gateCap, q.gate + 1⟩, true) := by
        simp [blockingDeque.append, if_pos hg, deque.append, if_pos hc]
      rw [hh] at happ
      simp only [Prod.mk.injEq] at happ
      rw [hclose, happ.1]
    · intro hg
      have happ : q.append none = (q, false) := by
        simp only [blockingDeque.append, if_neg (by omega : ¬ q.gate < q.gateCap)]
      rw [hh] at happ
      simp only [Prod.mk.injEq] at happ
      rw [hclose, happ.1, ← hq]
  · intro hu
    have hput : p.put (some c) = ((p.put (some c)).1, .ok, []) := by
      rcases hb : q.append (some c) with ⟨qa, ba⟩
      rcases hp : q.prepend (some c) with ⟨qb, bb⟩
      by_cases hf : p.config.cacheMethod = CacheMethod.fifo
      · simp [blockingPool.put, hf, blockingPool.putBottom, hq, hb]
      · simp [blockingPool.put, hf, blockingPool.putTop, hq, hp]
    have hclose : c.Close p = ((p.put (some c)).1, []) := by
      simp only [WrappedConn.Close, hu, Bool.false_eq_true, if_false]
      rw [hput]
    have hok : (p.put (some c)).2.1 = putResult.ok := by
      have := congrArg (fun x => x.2.1) hput
      simpa using this
    exact ⟨by rw [hclose], hok, by rw [hclose]⟩

/-- C9 witness pool: open pool, `maxCap = 2`, empty deque, empty gate. -/
def c9pool : blockingPool :=
  ⟨{ defaultConfig with maxCap := 2 }, some ⟨⟨[], 2⟩, 2, 0⟩, 0, true⟩

/-- C9 witness blocking deque. -/
def c9deque : blockingDeque := ⟨⟨[], 2⟩, 2, 0⟩

/-- C9 witness handle (unusable). -/
def c9conn : WrappedConn := ⟨4, true, 0, false⟩

theorem close_routes_by_usability_witness :
    (c9pool.conns = some c9deque ∧ c9deque.dq.capacity = (c9deque.gateCap : Int) ∧
     c9deque.dq.container.length ≤ c9deque.gate) ∧
    ((c9conn.unusable = true →
      (c9conn.Close c9pool).2 = [Event.transportClose c9conn.id] ∧
      (c9deque.gate < c9deque.gateCap →
        (c9conn.Close c9pool).1 =
          { c9pool with
            conns := some ⟨⟨c9deque.dq.container ++ [none], c9deque.dq.capacity⟩, c9deque.gateCap, c9deque.gate + 1⟩ }) ∧
      (c9deque.gateCap ≤ c9deque.gate → (c9conn.Close c9pool).1 = c9pool)) ∧
     (c9conn.unusable = false →
      (c9conn.Close c9pool).1 = (c9pool.put (some c9conn)).1 ∧
      (c9pool.put (some c9conn)).2.1 = putResult.ok ∧
      (c9conn.Close c9pool).2 = [])) :=
  ⟨⟨rfl, by decide, by decide⟩,
   close_routes_by_usability c9pool c9deque c9conn rfl (by decide) (by decide)⟩

/-! ### C5: the bounded queue's release operations -/

/-- C5: `release_at_tail` (`blockingDeque.append`) and `release_at_head`
(`blockingDeque.prepend`) are non-blocking (they are total functions of
the state — the source uses a `select` with a `default` branch): when the
gate is already full they fail immediately with the full-queue error and
leave the whole queue, in particular the underlying deque, unchanged;
when the gate is not full they add one token and push the item at the
tail resp. the head of the deque.  The two side conditions are the
construction invariants of every blocking deque the pool builds (deque
capacity equals gate capacity, and stored elements never outnumber
tokens). -/
theorem release_fails_full_else_pushes
    (q : blockingDeque) (e : Elem)
    (hlen : q.dq.container.length ≤ q.gate)
    (hcap : q.dq.capacity = (q.gateCap : Int)) :
    (q.gateCap ≤ q.gate → q.append e = (q, false) ∧ q.prepend e = (q, false)) ∧
    (q.gate < q.gateCap →
      (q.append e).2 = true ∧
      (q.append e).1.gate = q.gate + 1 ∧
      (q.append e).1.dq.container = q.dq.container ++ [e] ∧
      (q.prepend e).2 = true ∧
      (q.prepend e).1.gate = q.gate + 1 ∧
      (q.prepend e).1.dq.container = e :: q.dq.container) := by
  constructor
  · intro h
    have hn : ¬ q.gate < q.gateCap := by omega
    constructor <;> simp [blockingDeque.append, blockingDeque.prepend, if_neg hn]
  · intro h
    have hc : q.dq.capacity < 0 ∨ (q.dq.container.length : Int) < q.dq.capacity := by
      right
      rw [hcap]
      exact_mod_cast lt_of_le_of_lt hlen h
    simp [blockingDeque.append, blockingDeque.prepend, deque.append, deque.prepend,
      if_pos h, if_pos hc]

/-- C5 witness blocking deque: one stored handle, two tokens, capacity 3. -/
def c5deque : blockingDeque := ⟨⟨[some ⟨1, false, 0, false⟩], 3⟩, 3, 2⟩

/-- C5 witness element. -/
def c5elem : Elem := some ⟨2, false, 0, false⟩

theorem release_fails_full_else_pushes_witness :
    (c5deque.dq.container.length ≤ c5deque.gate ∧
     c5deque.dq.capacity = (c5deque.gateCap : Int)) ∧
    ((c5deque.gateCap ≤ c5deque.gate →
      c5deque.append c5elem = (c5deque, false) ∧ c5deque.prepend c5elem = (c5deque, false)) ∧
     (c5deque.gate < c5deque.gateCap →
      (c5deque.append c5elem).2 = true ∧
      (c5deque.append c5elem).1.gate = c5deque.gate + 1 ∧
      (c5deque.append c5elem).1.dq.container = c5deque.dq.container ++ [c5elem] ∧
      (c5deque.prepend c5elem).2 = true ∧
      (c5deque.prepend c5elem).1.gate = c5deque.gate + 1 ∧
      (c5deque.prepend c5elem).1.dq.container = c5elem :: c5deque.dq.container)) :=
  ⟨⟨by decide, by decide⟩,
   release_fails_full_else_pushes c5deque c5elem (by decide) (by decide)⟩

/-! ### C8: the idle sweep is an in-place marking -/

theorem checkIdle_fst (c : WrappedConn) (now t : Int) :
    (c.checkIdle now t).1 =
      if t < now - c.lastAccess then
        { c with unusable := true, transportClosed := true }
      else c := by
  unfold WrappedConn.checkIdle
  split <;> rfl

theorem sweepElems_eq_map (now t : Int) :
    ∀ (l l' : List Elem) (ev : List Event),
      sweepElems now t l = some (l', ev) →
      l' = l.map fun e => e.map fun c => (c.checkIdle now t).1 := by
  intro l
  induction l with
  | nil =>
    intro l' ev h
    simp only [sweepElems, Option.some.injEq, Prod.mk.injEq] at h
    simp [← h.1]
  | cons e rest ih =>
    intro l' ev h
    match e with
    | none => simp [sweepElems] at h
    | some c =>
      rcases hck : c.checkIdle now t with ⟨c1, b1, ev1⟩
      rcases hsw : sweepElems now t rest with _ | ⟨rest', evs⟩
      · rw [sweepElems, hck, hsw] at h
        simp at h
      · rw [sweepElems, hck, hsw] at h
        simp only [Option.some.injEq, Prod.mk.injEq] at h
        have h1 : c1 = (c.checkIdle now t).1 := by rw [hck]
        simp only [List.map_cons, Option.map_some]
        rw [← h.1, ih rest' evs hsw, h1]
        rfl

/-- C8: whenever a completed idle-sweep pass transforms the pool, every
handle whose time since last access strictly exceeds the configured idle
timeout gets its unusable flag set and its transport closed, in place;
every other handle is left untouched; and the sweep removes nothing —
the deque keeps its length (and hence order), capacity, and gate count. -/
theorem idle_sweep_marks_in_place
    (p p' : blockingPool) (now : Int) (ev : List Event) (q : blockingDeque)
    (hq : p.conns = some q)
    (hs : p.checkIdleConn now = some (p', ev)) :
    ∃ q', p'.conns = some q' ∧
      q'.gate = q.gate ∧
      q'.gateCap = q.gateCap ∧
      q'.dq.capacity = q.dq.capacity ∧
      q'.dq.container.length = q.dq.container.length ∧
      ∀ (i : Nat) (c : WrappedConn), q.dq.container[i]? = some (some c) →
        q'.dq.container[i]? =
          some (some (if p.config.idleTimeout < now - c.lastAccess then
            { c with unusable := true, transportClosed := true }
          else c)) := by
  unfold blockingPool.checkIdleConn at hs
  rw [hq] at hs
  dsimp only at hs
  rcases hsw : sweepElems now p.config.idleTimeout q.dq.container with _ | ⟨l', ev'⟩
  · rw [hsw] at hs
    simp at hs
  · rw [hsw] at hs
    simp only [Option.some.injEq, Prod.mk.injEq] at hs
    have hl : l' = q.dq.container.map fun e => e.map fun c =>
        (c.checkIdle now p.config.idleTimeout).1 :=
      sweepElems_eq_map now p.config.idleTimeout q.dq.container l' ev' hsw
    refine ⟨⟨⟨l', q.dq.capacity⟩, q.gateCap, q.gate⟩, ?_, rfl, rfl, rfl, ?_, ?_⟩
    · rw [← hs.1]
    · rw [hl]
      simp
    · intro i c hi
      rw [hl, List.getElem?_map, hi]
      simp [checkIdle_fst]

/-- C8 witness pool: two stored handles, the first long idle, the second
freshly used (`idleTimeout` is the default 3s; `now = 4s`). -/
def c8pool : blockingPool :=
  ⟨{ defaultConfig with maxCap := 2 },
   some ⟨⟨[some ⟨0, false, 0, false⟩, some ⟨1, false, 2 * second, false⟩], 2⟩, 2, 0⟩, 2, true⟩

/-- C8 witness blocking deque (the value of `c8pool.conns`). -/
def c8deque : blockingDeque :=
  ⟨⟨[some ⟨0, false, 0, false⟩, some ⟨1, false, 2 * second, false⟩], 2⟩, 2, 0⟩

theorem idle_sweep_marks_in_place_witness :
    (c8pool.conns = some c8deque ∧
     c8pool.checkIdleConn (4 * second) =
       some (⟨{ defaultConfig with maxCap := 2 },
         some ⟨⟨[some ⟨0, true, 0, true⟩, some ⟨1, false, 2 * second, false⟩], 2⟩, 2, 0⟩, 2, true⟩,
         [.transportClose 0])) ∧
    (∃ q', (⟨{ defaultConfig with maxCap := 2 },
         some ⟨⟨[some ⟨0, true, 0, true⟩, some ⟨1, false, 2 * second, false⟩], 2⟩, 2, 0⟩, 2, true⟩ :
           blockingPool).conns = some q' ∧
      q'.gate = c8deque.gate ∧
      q'.gateCap = c8deque.gateCap ∧
      q'.dq.capacity = c8deque.dq.capacity ∧
      q'.dq.container.length = c8deque.dq.container.length ∧
      ∀ (i : Nat) (c : WrappedConn), c8deque.dq.container[i]? = some (some c) →
        q'.dq.container[i]? =
          some (some (if c8pool.config.idleTimeout < 4 * second - c.lastAccess then
            { c with unusable := true, transportClosed := true }
          else c))) :=
  ⟨⟨rfl, by decide⟩,
   idle_sweep_marks_in_place c8pool _ (4 * second) [.transportClose 0] c8deque rfl (by decide)⟩

/-! ### C3: the gate/handle accounting invariant over all reachable states -/

theorem deque_append_length (s : deque) (e : Elem) :
    (s.append e).1.container.length ≤ s.container.length + 1 := by
  unfold deque.append
  split <;> simp

theorem deque_prepend_length (s : deque) (e : Elem) :
    (s.prepend e).1.container.length ≤ s.container.length + 1 := by
  unfold deque.prepend
  split <;> simp

theorem deque_pop_length (s : deque) :
    (s.pop).1.container.length ≤ s.container.length - 1 := by
  unfold deque.pop
  rcases h : s.container.getLast? with _ | x
  · have he : s.container = [] := by rwa [List.getLast?_eq_none_iff] at h
    simp [he]
  · simp [List.length_dropLast]

/-- Gate bookkeeping invariant of a blocking deque: the channel never
holds more tokens than its capacity, and stored elements (real handles
and nil markers together) never outnumber tokens. -/
def binv (q : blockingDeque) : Prop :=
  q.gate ≤ q.gateCap ∧ q.dq.container.length ≤ q.gate

theorem binv_pop (q : blockingDeque) (h : binv q) :
    binv (q.pop).1 ∧ (q.pop).1.gateCap = q.gateCap := by
  obtain ⟨h1, h2⟩ := h
  have hp := deque_pop_length q.dq
  unfold blockingDeque.pop binv
  split
  · exact ⟨⟨h1, h2⟩, rfl⟩
  · rename_i hg
    refine ⟨⟨?_, ?_⟩, rfl⟩
    · show q.gate - 1 ≤ q.gateCap
      omega
    · show (q.dq.pop).1.container.length ≤ q.gate - 1
      omega

theorem binv_append (q : blockingDeque) (e : Elem) (h : binv q) :
    binv (q.append e).1 ∧ (q.append e).1.gateCap = q.gateCap := by
  obtain ⟨h1, h2⟩ := h
  have ha := deque_append_length q.dq e
  unfold blockingDeque.append binv
  split
  · rename_i hg
    refine ⟨⟨?_, ?_⟩, rfl⟩
    · show q.gate + 1 ≤ q.gateCap
      omega
    · show (q.dq.append e).1.container.length ≤ q.gate + 1
      omega
  · exact ⟨⟨h1, h2⟩, rfl⟩

theorem binv_prepend (q : blockingDeque) (e : Elem) (h : binv q) :
    binv (q.prepend e).1 ∧ (q.prepend e).1.gateCap = q.gateCap := by
  obtain ⟨h1, h2⟩ := h
  have ha := deque_prepend_length q.dq e
  unfold blockingDeque.prepend binv
  split
  · rename_i hg
    refine ⟨⟨?_, ?_⟩, rfl⟩
    · show q.gate + 1 ≤ q.gateCap
      omega
    · show (q.dq.prepend e).1.container.length ≤ q.gate + 1
      omega
  · exact ⟨⟨h1, h2⟩, rfl⟩

/-- Pool-level invariant: whenever the pool holds a blocking deque, that
deque satisfies `binv` and its gate capacity is the configured maximum
capacity. -/
def pinv (p : blockingPool) : Prop :=
  ∀ q, p.conns = some q → q.gateCap = p.config.maxCap.toNat ∧ binv q

theorem pinv_NewWrapConn (p : blockingPool) (now : Int) (h : pinv p) :
    pinv (p.NewWrapConn now).1 := by
  intro q hq
  rw [NewWrapConn_fst_conns] at hq
  rw [NewWrapConn_fst_config]
  exact h q hq

theorem pinv_putTop (p : blockingPool) (c : Elem) (h : pinv p) : pinv (p.putTop c).1 := by
  unfold blockingPool.putTop
  rcases hc : p.conns with _ | q
  · rcases c with _ | c <;> exact h
  · intro q' hq'
    have hq'' : (q.prepend c).1 = q' := by simpa using hq'
    obtain ⟨hgc, hb⟩ := h q hc
    obtain ⟨hb', hgc'⟩ := binv_prepend q c hb
    rw [← hq'']
    refine ⟨?_, hb'⟩
    show (q.prepend c).1.gateCap = p.config.maxCap.toNat
    rw [hgc']
    exact hgc

theorem pinv_putBottom (p : blockingPool) (c : Elem) (h : pinv p) : pinv (p.putBottom c).1 := by
  unfold blockingPool.putBottom
  rcases hc : p.conns with _ | q
  · rcases c with _ | c <;> exact h
  · intro q' hq'
    have hq'' : (q.append c).1 = q' := by simpa using hq'
    obtain ⟨hgc, hb⟩ := h q hc
    obtain ⟨hb', hgc'⟩ := binv_append q c hb
    rw [← hq'']
    refine ⟨?_, hb'⟩
    show (q.append c).1.gateCap = p.config.maxCap.toNat
    rw [hgc']
    exact hgc

theorem pinv_put (p : blockingPool) (c : Elem) (h : pinv p) : pinv (p.put c).1 := by
  unfold blockingPool.put
  split
  · exact pinv_putBottom p c h
  · exact pinv_putTop p c h

theorem pinv_get (p : blockingPool) (now : Int) (h : pinv p) : pinv (p.Get now).1 := by
  unfold blockingPool.Get
  rcases hc : p.conns with _ | q
  · exact h
  · obtain ⟨hgc, hb⟩ := h q hc
    obtain ⟨hb', hgc'⟩ := binv_pop q hb
    have hppool : pinv { p with conns := some (q.pop).1 } := by
      intro q' hq'
      have hq'' : (q.pop).1 = q' := by simpa using hq'
      rw [← hq'']
      refine ⟨?_, hb'⟩
      show (q.pop).1.gateCap = p.config.maxCap.toNat
      rw [hgc']
      exact hgc
    have hwrap : pinv (wrapAfterPop p q now).1 :=
      pinv_NewWrapConn { p with conns := some (q.pop).1 } now hppool
    dsimp only
    split
    · exact hppool
    · split
      · exact hwrap
      · exact hwrap
    · exact hppool
    · split
      · split
        · exact hwrap
        · exact hwrap
      · exact hppool

theorem pinv_close (p : blockingPool) (c : WrappedConn) (h : pinv p) :
    pinv (c.Close p).1 := by
  unfold WrappedConn.Close
  split
  · exact pinv_putBottom p none h
  · split <;> exact pinv_put p (some c) h

theorem pinv_sweep (p p' : blockingPool) (now : Int) (ev : List Event)
    (hs : p.checkIdleConn now = some (p', ev)) (h : pinv p) : pinv p' := by
  unfold blockingPool.checkIdleConn at hs
  rcases hc : p.conns with _ | q
  · rw [hc] at hs
    simp at hs
  · rw [hc] at hs
    dsimp only at hs
    rcases hsw : sweepElems now p.config.idleTimeout q.dq.container with _ | ⟨l', ev'⟩
    · rw [hsw] at hs
      simp at hs
    · rw [hsw] at hs
      simp only [Option.some.injEq, Prod.mk.injEq] at hs
      obtain ⟨hgc, hb⟩ := h q hc
      have hlen : l'.length = q.dq.container.length := by
        rw [sweepElems_eq_map now _ _ _ _ hsw]
        simp
      intro q' hq'
      rw [← hs.1] at hq'
      have hq'' : ({ q with dq := { q.dq with container := l' } } : blockingDeque) = q' := by
        simpa using hq'
      rw [← hq'', ← hs.1]
      constructor
      · show q.gateCap = p.config.maxCap.toNat
        exact hgc
      · show q.gate ≤ q.gateCap ∧ l'.length ≤ q.gate
        exact ⟨hb.1, by rw [hlen]; exact hb.2⟩

theorem binv_newBlockingDeque (maxCap nilCap : Int) :
    binv (newBlockingDeque maxCap nilCap) ∧
    (newBlockingDeque maxCap nilCap).gateCap = maxCap.toNat := by
  unfold newBlockingDeque binv newDeque
  refine ⟨⟨?_, ?_⟩, rfl⟩ <;> simp

theorem initConns_pinv (now : Int) :
    ∀ (k : Nat) (p p' : blockingPool) (ev : List Event),
      initConns now k p = some (p', ev) → pinv p → pinv p' := by
  intro k
  induction k with
  | zero =>
    intro p p' ev h hp
    simp only [initConns, Option.some.injEq, Prod.mk.injEq] at h
    rw [← h.1]
    exact hp
  | succ n ih =>
    intro p p' ev h hp
    unfold initConns at h
    split at h
    · exact absurd h (by simp)
    · rename_i c heq
      split at h
      · exact absurd h (by simp)
      · rename_i q hq
        split at h
        · exact absurd h (by simp)
        · rename_i p3 evs hrec
          simp only [Option.some.injEq, Prod.mk.injEq] at h
          rw [← h.1]
          apply ih _ _ _ hrec
          have hp1 : pinv (p.NewWrapConn now).1 := pinv_NewWrapConn p now hp
          obtain ⟨hgc, hb⟩ := hp1 q hq
          obtain ⟨hb', hgc'⟩ := binv_prepend q (some c) hb
          intro q' hq'
          have hq'' : (q.prepend (some c)).1 = q' := by simpa using hq'
          rw [← hq'']
          refine ⟨?_, hb'⟩
          show (q.prepend (some c)).1.gateCap = (p.NewWrapConn now).1.config.maxCap.toNat
          rw [hgc']
          exact hgc

theorem NewBlockingPool_pinv (address : String) (u : Config) (dialOk : Bool) (now : Int)
    (p : blockingPool) (ev : List Event)
    (h : NewBlockingPool address u dialOk now = some (p, ev)) : pinv p := by
  unfold NewBlockingPool at h
  split at h
  · exact absurd h (by simp)
  · apply initConns_pinv now _ _ _ _ h
    intro q hq
    have hq'' : newBlockingDeque (defaultConfig.Merge u).1.maxCap
        ((defaultConfig.Merge u).1.maxCap - (defaultConfig.Merge u).1.initCap) = q := by
      simpa using hq
    obtain ⟨hb, hgc⟩ := binv_newBlockingDeque (defaultConfig.Merge u).1.maxCap
      ((defaultConfig.Merge u).1.maxCap - (defaultConfig.Merge u).1.initCap)
    rw [← hq'']
    exact ⟨hgc, hb⟩

theorem Reachable_pinv (p : blockingPool) (h : Reachable p) : pinv p := by
  induction h with
  | init address c dialOk now p ev hnew =>
    exact NewBlockingPool_pinv address c dialOk now p ev hnew
  | step p p' hr hs ih =>
    cases hs with
    | get now => exact pinv_get p now ih
    | release c => exact pinv_put p c ih
    | close c => exact pinv_close p c ih
    | sweep a b c d => exact pinv_sweep _ _ _ _ d ih

/-- C3: in every pool state reachable by any sequence of construction,
acquire (`Get`), release (`put`), handle close, and completed idle-sweep
operations, the number of tokens in the gate is at most the configured
maximum capacity, and at least the number of real handles stored in the
deque. -/
theorem gate_bounded_and_covers_real_handles
    (p : blockingPool) (hp : Reachable p) (q : blockingDeque) (hq : p.conns = some q) :
    q.gate ≤ p.config.maxCap.toNat ∧ realCount q.dq.container ≤ q.gate := by
  obtain ⟨hgc, hb⟩ := Reachable_pinv p hp q hq
  refine ⟨by rw [← hgc]; exact hb.1, ?_⟩
  calc realCount q.dq.container ≤ q.dq.container.length := List.length_filter_le _ _
    _ ≤ q.gate := hb.2

theorem gate_bounded_and_covers_real_handles_witness :
    Reachable (⟨defaultConfig, some ⟨⟨[], 1⟩, 1, 1⟩, 0, true⟩ : blockingPool) ∧
    ((⟨⟨[], 1⟩, 1, 1⟩ : blockingDeque).gate ≤
      (⟨defaultConfig, some ⟨⟨[], 1⟩, 1, 1⟩, 0, true⟩ : blockingPool).config.maxCap.toNat ∧
     realCount (⟨⟨[], 1⟩, 1, 1⟩ : blockingDeque).dq.container ≤
      (⟨⟨[], 1⟩, 1, 1⟩ : blockingDeque).gate) :=
  have hr : Reachable (⟨defaultConfig, some ⟨⟨[], 1⟩, 1, 1⟩, 0, true⟩ : blockingPool) :=
    Reachable.init "a" ⟨.undefinedCacheMethod, 0, 0, 0, 0, 0, 0⟩ true 0 _ [] (by decide)
  ⟨hr, gate_bounded_and_covers_real_handles _ hr _ rfl⟩

end PoolSpec
